import Mathlib

/-!
Verification of the legalrag retrieval pipeline.

This file shallowly embeds the core algorithmic components of the
repository — the chunker (`document_processor.py`), the page estimator,
the PDF text extractor's OCR fallback, the reranker (`reranker.py`),
the vector-database adapter (`database.py`) and the search orchestrator
(`search.py`), and the answer synthesizer (`synthesis.py`) — and proves
the specified properties about them.

Conventions: Python floats are modelled as exact rationals (ℚ); the
external oracles (embedding model, cross-encoder, OCR engine, completion
API, the index's distance metric) are opaque parameters; fallible calls
are modelled with `Except`/`Option`.
-/

namespace LegalRag

/-! ## Chunker: `DocumentProcessor._create_chunks` / `_estimate_page` -/

/-- `DocumentProcessor._estimate_page(word_position, total_words, total_pages)`:
`if total_words == 0: return 1`; `page = int(word_position/total_words * total_pages) + 1`;
`return min(page, total_pages)`.  Exact-arithmetic embedding of the float
computation: `int(...)` on a nonnegative value is floor, i.e. Nat division. -/
def estimate_page (word_position total_words total_pages : ℕ) : ℕ :=
  if total_words = 0 then 1
  else min (word_position * total_pages / total_words + 1) total_pages

/-- The window-start positions generated by the `while pos < len(words)` loop of
`DocumentProcessor._create_chunks`: starting from `pos`, emit `pos` and advance by
`step = chunk_size - chunk_overlap` while `pos < w`.  (The Python loop does not
terminate when the step is not positive; the model returns early in that case,
which is outside every claim's `overlap < chunk_size` hypothesis.) -/
def chunkStartsAux (step w : ℕ) (pos : ℕ) : List ℕ :=
  if _h : pos < w ∧ 0 < step then
    pos :: chunkStartsAux step w (pos + step)
  else []
termination_by w - pos
decreasing_by omega

/-- All window-start positions of `_create_chunks` for a word list of length `w`,
with `chunk_size = c` and `chunk_overlap = o` (the loop starts at `pos = 0` and
advances by `c - o`). -/
def chunkStarts (c o w : ℕ) : List ℕ := chunkStartsAux (c - o) w 0

/-- The `DocumentChunk` record of `document_processor.py`, restricted to the
fields the chunker computes (`user_id`, `ocr_used`, `ocr_pages`, `total_pages`
are passed through unchanged and omitted here only where a claim ignores them). -/
structure DocumentChunk where
  text : String
  document_id : String
  filename : String
  page : ℕ
  chunk_id : String
  total_chunks : ℕ
  start : ℕ          -- the loop's `pos` for this chunk (implicit in the source)
  chunk_num : ℕ
  deriving Repr, DecidableEq

/-- `DocumentProcessor._create_chunks`: slide the window over `words`, build a
provisional chunk per window (with `total_chunks = 0`), then backfill
`total_chunks` on every chunk with the final count. -/
def create_chunks (chunk_size chunk_overlap : ℕ) (words : List String)
    (document_id filename : String) (total_pages : ℕ) : List DocumentChunk :=
  let starts := chunkStarts chunk_size chunk_overlap words.length
  let provisional := starts.enum.map (fun p =>
    ({ text := String.intercalate " " ((words.drop p.2).take chunk_size)
       document_id := document_id
       filename := filename
       page := estimate_page p.2 words.length total_pages
       chunk_id := document_id ++ "_chunk_" ++ toString p.1
       total_chunks := 0
       start := p.2
       chunk_num := p.1 } : DocumentChunk))
  provisional.map (fun c => { c with total_chunks := provisional.length })

/-! ### Basic lemmas about the window-start list -/

theorem chunkStartsAux_eq (step w pos : ℕ) :
    chunkStartsAux step w pos =
      if pos < w ∧ 0 < step then pos :: chunkStartsAux step w (pos + step) else [] := by
  rw [chunkStartsAux]
  split <;> simp_all

/-- Closed form for the elements of the window-start list. -/
theorem chunkStartsAux_getElem? (step w : ℕ) (hstep : 0 < step) :
    ∀ (i pos : ℕ), (chunkStartsAux step w pos)[i]? =
      if pos + i * step < w then some (pos + i * step) else none := by
  intro i
  induction i with
  | zero =>
    intro pos
    rw [chunkStartsAux_eq]
    by_cases h : pos < w
    · simp [h, hstep]
    · simp [h]
  | succ n ih =>
    intro pos
    rw [chunkStartsAux_eq]
    by_cases h : pos < w
    · simp only [h, hstep, and_self, if_true, List.getElem?_cons_succ]
      rw [ih (pos + step)]
      have : pos + step + n * step = pos + (n + 1) * step := by ring
      rw [this]
    · have h2 : ¬ (pos + (n + 1) * step < w) := by
        intro hc
        exact h (lt_of_le_of_lt (Nat.le_add_right _ _) hc)
      simp [h, h2]

theorem chunkStarts_getElem? (c o w i : ℕ) (ho : o < c) :
    (chunkStarts c o w)[i]? = if i * (c - o) < w then some (i * (c - o)) else none := by
  have := chunkStartsAux_getElem? (c - o) w (by omega) i 0
  simpa using this

/-- `create_chunks` written as one map over the window-start list, with the
backfilled `total_chunks` made explicit. -/
theorem create_chunks_eq (c o : ℕ) (words : List String) (d f : String) (tp : ℕ) :
    create_chunks c o words d f tp =
      (chunkStarts c o words.length).enum.map (fun p =>
        ({ text := String.intercalate " " ((words.drop p.2).take c)
           document_id := d
           filename := f
           page := estimate_page p.2 words.length tp
           chunk_id := d ++ "_chunk_" ++ toString p.1
           total_chunks := (chunkStarts c o words.length).length
           start := p.2
           chunk_num := p.1 } : DocumentChunk)) := by
  unfold create_chunks
  simp [List.map_map, Function.comp]

theorem create_chunks_length (c o : ℕ) (words : List String) (d f : String) (tp : ℕ) :
    (create_chunks c o words d f tp).length = (chunkStarts c o words.length).length := by
  rw [create_chunks_eq]
  simp

theorem create_chunks_getElem? (c o : ℕ) (words : List String) (d f : String) (tp : ℕ)
    (ho : o < c) (i : ℕ) :
    (create_chunks c o words d f tp)[i]? =
      if i * (c - o) < words.length then
        some ({ text := String.intercalate " " ((words.drop (i * (c - o))).take c)
                document_id := d
                filename := f
                page := estimate_page (i * (c - o)) words.length tp
                chunk_id := d ++ "_chunk_" ++ toString i
                total_chunks := (chunkStarts c o words.length).length
                start := i * (c - o)
                chunk_num := i } : DocumentChunk)
      else none := by
  rw [create_chunks_eq]
  rw [List.getElem?_map, List.getElem?_enum, chunkStarts_getElem? c o words.length i ho]
  by_cases h : i * (c - o) < words.length <;> simp [h]

theorem create_chunks_lt_length_iff (c o : ℕ) (words : List String) (d f : String) (tp : ℕ)
    (ho : o < c) (i : ℕ) :
    i < (create_chunks c o words d f tp).length ↔ i * (c - o) < words.length := by
  constructor
  · intro h
    have h1 := create_chunks_getElem? c o words d f tp ho i
    have h2 : (create_chunks c o words d f tp)[i]? ≠ none := by
      simp [List.getElem?_eq_none_iff]
      omega
    by_contra hc
    rw [h1] at h2
    simp [hc] at h2
  · intro h
    have h1 := create_chunks_getElem? c o words d f tp ho i
    rw [if_pos h] at h1
    have := List.getElem?_eq_none_iff (l := create_chunks c o words d f tp) (n := i)
    by_contra hc
    rw [this.2 (by omega)] at h1
    exact Option.noConfusion h1

theorem create_chunks_get_start (c o : ℕ) (words : List String) (d f : String) (tp : ℕ)
    (ho : o < c) (i : ℕ) (h : i < (create_chunks c o words d f tp).length) :
    ((create_chunks c o words d f tp).get ⟨i, h⟩).start = i * (c - o) := by
  have h1 := create_chunks_getElem? c o words d f tp ho i
  have hlt : i * (c - o) < words.length :=
    (create_chunks_lt_length_iff c o words d f tp ho i).1 h
  rw [if_pos hlt] at h1
  have h2 : (create_chunks c o words d f tp)[i]? =
      some ((create_chunks c o words d f tp).get ⟨i, h⟩) := by
    simp [List.getElem?_eq_getElem h]
  rw [h2] at h1
  have := Option.some.inj h1
  rw [this]

theorem create_chunks_get_page (c o : ℕ) (words : List String) (d f : String) (tp : ℕ)
    (ho : o < c) (i : ℕ) (h : i < (create_chunks c o words d f tp).length) :
    ((create_chunks c o words d f tp).get ⟨i, h⟩).page =
      estimate_page (i * (c - o)) words.length tp := by
  have h1 := create_chunks_getElem? c o words d f tp ho i
  have hlt : i * (c - o) < words.length :=
    (create_chunks_lt_length_iff c o words d f tp ho i).1 h
  rw [if_pos hlt] at h1
  have h2 : (create_chunks c o words d f tp)[i]? =
      some ((create_chunks c o words d f tp).get ⟨i, h⟩) := by
    simp [List.getElem?_eq_getElem h]
  rw [h2] at h1
  have := Option.some.inj h1
  rw [this]

theorem create_chunks_total_chunks (c o : ℕ) (words : List String) (d f : String) (tp : ℕ)
    (ch : DocumentChunk) (hch : ch ∈ create_chunks c o words d f tp) :
    ch.total_chunks = (create_chunks c o words d f tp).length := by
  rw [create_chunks_eq] at hch
  rw [List.mem_map] at hch
  obtain ⟨p, _, rfl⟩ := hch
  rw [create_chunks_length]

/-! ### Page-estimation lemmas -/

/-- Modelled from the spec's wording for comparison with the code:
`page = floor((window_start / total_words) * total_pages) + 1`, clamped to
`[1, total_pages]`. -/
def specPage (window_start total_words total_pages : ℕ) : ℕ :=
  max 1 (min (window_start * total_pages / total_words + 1) total_pages)

theorem estimate_page_eq_specPage (ws w tp : ℕ) (hw : 0 < w) (htp : 1 ≤ tp) :
    estimate_page ws w tp = specPage ws w tp := by
  unfold estimate_page specPage
  rw [if_neg (by omega)]
  generalize ws * tp / w = q
  omega

theorem estimate_page_ge_one (ws w tp : ℕ) (htp : 1 ≤ tp) :
    1 ≤ estimate_page ws w tp := by
  unfold estimate_page
  split
  · exact le_refl 1
  · exact le_min (Nat.le_add_left 1 _) htp

theorem estimate_page_le (ws w tp : ℕ) (hw : 0 < w) :
    estimate_page ws w tp ≤ tp := by
  unfold estimate_page
  rw [if_neg (by omega)]
  exact min_le_right _ _

theorem estimate_page_mono (ws ws' w tp : ℕ) (h : ws ≤ ws') :
    estimate_page ws w tp ≤ estimate_page ws' w tp := by
  unfold estimate_page
  split
  · exact le_refl 1
  · exact min_le_min
      (Nat.add_le_add_right (Nat.div_le_div_right (Nat.mul_le_mul_right tp h)) 1)
      (le_refl tp)

/-! ## Claim theorems for the chunker -/

/-- C3: for a text of `W` words with `chunk_size = C`, `overlap = O`, `O < C`,
the windows start exactly at `0, C-O, 2(C-O), …` for as long as the start is
strictly less than `W` (so `W = 0` gives zero chunks), each chunk after the
first starts exactly `C-O` words after the previous one, every produced chunk's
`total_chunks` equals the final chunk count, and for `W = 600`, `C = 250`,
`O = 25` there are exactly 3 chunks at offsets `0, 225, 450`, each with
`total_chunks = 3`. -/
theorem chunking_window_layout (c o : ℕ) (words : List String) (d f : String) (tp : ℕ)
    (ho : o < c) (L : List DocumentChunk) (hL : L = create_chunks c o words d f tp)
    (L6 : List DocumentChunk)
    (hL6 : L6 = create_chunks 250 25 (List.replicate 600 "w") d f tp) :
    (∀ i : ℕ, i < L.length ↔ i * (c - o) < words.length)
    ∧ (∀ i (h : i < L.length), (L.get ⟨i, h⟩).start = i * (c - o))
    ∧ (words.length = 0 → L = [])
    ∧ (∀ i (h : i + 1 < L.length),
        (L.get ⟨i + 1, h⟩).start = (L.get ⟨i, Nat.lt_of_succ_lt h⟩).start + (c - o))
    ∧ (∀ ch ∈ L, ch.total_chunks = L.length)
    ∧ (L6.length = 3 ∧ (∀ i (h : i < L6.length), (L6.get ⟨i, h⟩).start = i * 225)
        ∧ ∀ ch ∈ L6, ch.total_chunks = 3) := by
  subst hL
  subst hL6
  have hiff := fun i => create_chunks_lt_length_iff c o words d f tp ho i
  have hstart := fun i h => create_chunks_get_start c o words d f tp ho i h
  refine ⟨hiff, hstart, ?_, ?_, ?_, ?_, ?_, ?_⟩
  · intro hw
    have h0 : ¬ (0 < (create_chunks c o words d f tp).length) := by
      intro hc
      have := (hiff 0).1 hc
      omega
    cases hne : create_chunks c o words d f tp with
    | nil => rfl
    | cons a l => rw [hne] at h0; simp at h0
  · intro i h
    rw [hstart (i + 1) h, hstart i (Nat.lt_of_succ_lt h)]
    ring
  · exact fun ch hch => create_chunks_total_chunks c o words d f tp ch hch
  · have hiff6 := fun i =>
      create_chunks_lt_length_iff 250 25 (List.replicate 600 "w") d f tp (by omega) i
    have h2 := (hiff6 2).2 (by simp only [List.length_replicate]; omega)
    have h3 := hiff6 3
    simp only [List.length_replicate] at h3
    omega
  · intro i h
    have hs := create_chunks_get_start 250 25 (List.replicate 600 "w") d f tp (by omega) i h
    rw [hs]
  · intro ch hch
    have h1 := create_chunks_total_chunks 250 25 (List.replicate 600 "w") d f tp ch hch
    have hiff6 := fun i =>
      create_chunks_lt_length_iff 250 25 (List.replicate 600 "w") d f tp (by omega) i
    have h2 := (hiff6 2).2 (by simp only [List.length_replicate]; omega)
    have h3 := hiff6 3
    simp only [List.length_replicate] at h3
    omega

/-- Witness for C3 at a concrete input. -/
theorem chunking_window_layout_witness :
    (25 : ℕ) < 250
    ∧ (create_chunks 250 25 (List.replicate 600 "w") "doc" "contract.pdf" 4).length = 3 := by
  refine ⟨by omega, ?_⟩
  have h := chunking_window_layout 250 25 (List.replicate 600 "w") "doc" "contract.pdf" 4
    (by omega) _ rfl _ rfl
  exact h.2.2.2.2.2.1

/-- C4: for a chunked document with `total_words > 0` and `total_pages ≥ 1`,
every chunk's estimated page equals
`floor((window_start / total_words) * total_pages) + 1` clamped to
`[1, total_pages]`; hence every chunk's page lies in `[1, total_pages]`, and
the page is monotonically non-decreasing in the chunk ordinal. -/
theorem page_estimation_correct (c o : ℕ) (words : List String) (d f : String) (tp : ℕ)
    (ho : o < c) (hw : 0 < words.length) (htp : 1 ≤ tp)
    (L : List DocumentChunk) (hL : L = create_chunks c o words d f tp) :
    (∀ ch ∈ L, ch.page = specPage ch.start words.length tp)
    ∧ (∀ ch ∈ L, 1 ≤ ch.page ∧ ch.page ≤ tp)
    ∧ (∀ i j (hi : i < L.length) (hj : j < L.length), i ≤ j →
        (L.get ⟨i, hi⟩).page ≤ (L.get ⟨j, hj⟩).page) := by
  subst hL
  refine ⟨?_, ?_, ?_⟩
  · intro ch hch
    rw [create_chunks_eq] at hch
    rw [List.mem_map] at hch
    obtain ⟨p, _, rfl⟩ := hch
    exact estimate_page_eq_specPage p.2 words.length tp hw htp
  · intro ch hch
    rw [create_chunks_eq] at hch
    rw [List.mem_map] at hch
    obtain ⟨p, _, rfl⟩ := hch
    exact ⟨estimate_page_ge_one p.2 words.length tp htp,
           estimate_page_le p.2 words.length tp hw⟩
  · intro i j hi hj hij
    rw [create_chunks_get_page c o words d f tp ho i hi,
        create_chunks_get_page c o words d f tp ho j hj]
    exact estimate_page_mono _ _ _ _ (Nat.mul_le_mul_right _ hij)

/-- Witness for C4 at a concrete input. -/
theorem page_estimation_correct_witness :
    ((25 : ℕ) < 250 ∧ 0 < (List.replicate 600 "w").length ∧ (1 : ℕ) ≤ 4)
    ∧ ∀ ch ∈ create_chunks 250 25 (List.replicate 600 "w") "doc" "contract.pdf" 4,
        1 ≤ ch.page ∧ ch.page ≤ 4 := by
  refine ⟨⟨by omega, by simp only [List.length_replicate]; omega, by omega⟩, ?_⟩
  have h := page_estimation_correct 250 25 (List.replicate 600 "w") "doc" "contract.pdf" 4
    (by omega) (by simp only [List.length_replicate]; omega) (by omega) _ rfl
  exact h.2.1

/-! ## Reranker: `Reranker.rerank` (`reranker.py`) -/

/-- Python `min(scores)` over a nonempty list (0 on `[]`, never reached). -/
def listMin : List ℚ → ℚ
  | [] => 0
  | [x] => x
  | x :: y :: xs => min x (listMin (y :: xs))

/-- Python `max(scores)` over a nonempty list (0 on `[]`, never reached). -/
def listMax : List ℚ → ℚ
  | [] => 0
  | [x] => x
  | x :: y :: xs => max x (listMax (y :: xs))

/-- The min-max normalization step of `Reranker.rerank`: if all scores are
equal, assign 0.5 to all, else map each score `s` to
`(s - min) / (max - min)`. -/
def normalize_scores (scores : List ℚ) : List ℚ :=
  let min_score := listMin scores
  let max_score := listMax scores
  if max_score = min_score then scores.map (fun _ => 1/2)
  else scores.map (fun s => (s - min_score) / (max_score - min_score))

/-- The comparison used by `results.sort(key=lambda x: x[1], reverse=True)`:
descending by the score component.  Python's sort is stable, so the source's
sort is exactly the stable sort by this relation. -/
def scoreGE (a b : ℕ × ℚ) : Prop := b.2 ≤ a.2

instance : DecidableRel scoreGE := fun a b => inferInstanceAs (Decidable (b.2 ≤ a.2))

instance : IsTotal (ℕ × ℚ) scoreGE := ⟨fun a b => le_total b.2 a.2⟩

instance : IsTrans (ℕ × ℚ) scoreGE := ⟨fun _ _ _ hab hbc => le_trans hbc hab⟩

/-- `Reranker.rerank(query, documents, top_k)`, with the cross-encoder's raw
output supplied as `scores` (one raw score per document, in document order;
`scores = []` iff `documents` is empty): normalize by min-max, pair each
normalized score with its original index, stable-sort descending by score,
and truncate to `top_k` when given. -/
def rerank (scores : List ℚ) (top_k : Option ℕ) : List (ℕ × ℚ) :=
  if scores = [] then []
  else
    let normalized := normalize_scores scores
    let results := normalized.enum
    let sorted := List.insertionSort scoreGE results
    match top_k with
    | some k => sorted.take k
    | none => sorted

theorem listMin_le : ∀ (l : List ℚ), ∀ x ∈ l, listMin l ≤ x
  | [], x, hx => absurd hx (List.not_mem_nil x)
  | [a], x, hx => by
      rcases List.mem_singleton.1 hx with rfl
      exact le_of_eq (by simp [listMin])
  | a :: b :: l, x, hx => by
      rcases List.mem_cons.1 hx with rfl | hx'
      · exact min_le_left _ _
      · exact le_trans (min_le_right _ _) (listMin_le (b :: l) x hx')

theorem le_listMax : ∀ (l : List ℚ), ∀ x ∈ l, x ≤ listMax l
  | [], x, hx => absurd hx (List.not_mem_nil x)
  | [a], x, hx => by
      rcases List.mem_singleton.1 hx with rfl
      exact le_of_eq (by simp [listMax])
  | a :: b :: l, x, hx => by
      rcases List.mem_cons.1 hx with rfl | hx'
      · exact le_max_left _ _
      · exact le_trans (le_listMax (b :: l) x hx') (le_max_right _ _)

theorem listMin_mem : ∀ (l : List ℚ), l ≠ [] → listMin l ∈ l
  | [], h => absurd rfl h
  | [a], _ => by simp [listMin]
  | a :: b :: l, _ => by
      rcases min_cases a (listMin (b :: l)) with ⟨heq, _⟩ | ⟨heq, _⟩
      · rw [listMin, heq]; exact List.mem_cons_self _ _
      · rw [listMin, heq]
        exact List.mem_cons_of_mem a (listMin_mem (b :: l) (by simp))

theorem listMax_mem : ∀ (l : List ℚ), l ≠ [] → listMax l ∈ l
  | [], h => absurd rfl h
  | [a], _ => by simp [listMax]
  | a :: b :: l, _ => by
      rcases max_cases a (listMax (b :: l)) with ⟨heq, _⟩ | ⟨heq, _⟩
      · rw [listMax, heq]; exact List.mem_cons_self _ _
      · rw [listMax, heq]
        exact List.mem_cons_of_mem a (listMax_mem (b :: l) (by simp))

theorem listMin_le_listMax (l : List ℚ) (hne : l ≠ []) : listMin l ≤ listMax l :=
  le_trans (listMin_le l _ (listMax_mem l hne)) (le_refl _)

theorem normalize_scores_bounds (scores : List ℚ) :
    ∀ s ∈ normalize_scores scores, 0 ≤ s ∧ s ≤ 1 := by
  intro s hs
  unfold normalize_scores at hs
  by_cases hcase : listMax scores = listMin scores
  · rw [if_pos hcase] at hs
    rw [List.mem_map] at hs
    obtain ⟨x, _, rfl⟩ := hs
    norm_num
  · rw [if_neg hcase] at hs
    rw [List.mem_map] at hs
    obtain ⟨x, hx, rfl⟩ := hs
    have hne : scores ≠ [] := by
      intro h
      subst h
      exact absurd hx (List.not_mem_nil x)
    have h1 : listMin scores ≤ x := listMin_le scores x hx
    have h2 : x ≤ listMax scores := le_listMax scores x hx
    have h3 : listMin scores ≤ listMax scores := le_trans h1 h2
    have h4 : listMin scores < listMax scores := lt_of_le_of_ne h3 (Ne.symm hcase)
    have hd : 0 < listMax scores - listMin scores := by linarith
    constructor
    · exact div_nonneg (by linarith) (le_of_lt hd)
    · rw [div_le_one hd]
      linarith

theorem normalize_scores_extremes (scores : List ℚ) (hne : scores ≠ [])
    (hd : listMin scores ≠ listMax scores) :
    (0 : ℚ) ∈ normalize_scores scores ∧ (1 : ℚ) ∈ normalize_scores scores := by
  unfold normalize_scores
  rw [if_neg (Ne.symm hd)]
  constructor
  · rw [List.mem_map]
    exact ⟨listMin scores, listMin_mem scores hne, by simp⟩
  · rw [List.mem_map]
    refine ⟨listMax scores, listMax_mem scores hne, ?_⟩
    rw [div_self]
    exact sub_ne_zero.2 (Ne.symm hd)

theorem normalize_scores_all_eq (scores : List ℚ)
    (h : ∀ x ∈ scores, x = listMin scores) :
    ∀ s ∈ normalize_scores scores, s = 1/2 := by
  intro s hs
  unfold normalize_scores at hs
  rcases scores with _ | ⟨b, l⟩
  · simp only [List.map_nil, if_pos rfl] at hs
    exact absurd hs (List.not_mem_nil s)
  · have hmax : listMax (b :: l) = listMin (b :: l) :=
      h _ (listMax_mem _ (by simp))
    rw [if_pos hmax] at hs
    rw [List.mem_map] at hs
    obtain ⟨x, _, rfl⟩ := hs
    rfl

/-- Stability of `orderedInsert`: inserting an element whose original index is
larger than every index already present preserves the tie-order invariant
"equal scores appear in increasing original-index order". -/
theorem orderedInsert_stable (a : ℕ × ℚ) :
    ∀ (M : List (ℕ × ℚ)),
      M.Pairwise (fun x y => x.2 = y.2 → x.1 < y.1) →
      (∀ y ∈ M, a.1 < y.1) →
      (List.orderedInsert scoreGE a M).Pairwise (fun x y => x.2 = y.2 → x.1 < y.1)
  | [], _, _ => by simp
  | b :: M', hM, hidx => by
      rw [List.orderedInsert]
      by_cases hr : scoreGE a b
      · rw [if_pos hr]
        rw [List.pairwise_cons]
        exact ⟨fun z hz _ => hidx z hz, hM⟩
      · rw [if_neg hr]
        rw [List.pairwise_cons] at hM ⊢
        constructor
        · intro z hz heq
          rw [List.mem_orderedInsert] at hz
          rcases hz with rfl | hz'
          · exact absurd (le_of_eq heq) hr
          · exact hM.1 z hz' heq
        · exact orderedInsert_stable a M' hM.2
            (fun y hy => hidx y (List.mem_cons_of_mem b hy))

/-- Stability of the stable descending sort: if the input carries strictly
increasing original indices, candidates with equal scores appear in the output
in increasing original-index order. -/
theorem insertionSort_stable :
    ∀ (l : List (ℕ × ℚ)), l.Pairwise (fun x y => x.1 < y.1) →
      (List.insertionSort scoreGE l).Pairwise (fun x y => x.2 = y.2 → x.1 < y.1)
  | [], _ => by simp
  | a :: l, hl => by
      rw [List.insertionSort]
      rw [List.pairwise_cons] at hl
      exact orderedInsert_stable a _ (insertionSort_stable l hl.2)
        (fun y hy => hl.1 y ((List.mem_insertionSort scoreGE).1 hy))

theorem enum_pairwise_fst_lt {α : Type} (l : List α) :
    l.enum.Pairwise (fun x y => x.1 < y.1) := by
  have h : (l.enum.map Prod.fst).Pairwise (fun a b => a < b) := by
    rw [List.enum_map_fst]
    exact List.pairwise_lt_range _
  exact List.pairwise_map.1 h

theorem mem_rerank_snd_mem (scores : List ℚ) (top_k : Option ℕ) (p : ℕ × ℚ)
    (hp : p ∈ rerank scores top_k) : p.2 ∈ normalize_scores scores := by
  unfold rerank at hp
  by_cases hne : scores = []
  · rw [if_pos hne] at hp
    exact absurd hp (List.not_mem_nil p)
  · rw [if_neg hne] at hp
    have hp' : p ∈ List.insertionSort scoreGE (normalize_scores scores).enum := by
      cases top_k with
      | some k => exact (List.take_sublist k _).mem hp
      | none => exact hp
    have hp'' : p ∈ (normalize_scores scores).enum := (List.mem_insertionSort scoreGE).1 hp'
    rw [List.mem_enum_iff_getElem?] at hp''
    exact List.getElem?_mem hp''

/-- C5: for a non-empty candidate list, min-max normalization puts every
normalized score in `[0,1]` with the minimum mapping to 0 and the maximum to 1
(when they differ); if all raw scores are equal every normalized score is 0.5;
the returned `(index, score)` pairs are sorted descending by normalized score
and truncated to at most `top_k` entries. -/
theorem rerank_minmax_normalization (scores : List ℚ) (top_k : Option ℕ)
    (hne : scores ≠ []) :
    (∀ s ∈ normalize_scores scores, 0 ≤ s ∧ s ≤ 1)
    ∧ (listMin scores ≠ listMax scores →
        (0 : ℚ) ∈ normalize_scores scores ∧ (1 : ℚ) ∈ normalize_scores scores)
    ∧ ((∀ x ∈ scores, x = listMin scores) → ∀ s ∈ normalize_scores scores, s = 1/2)
    ∧ (∀ p ∈ rerank scores top_k, 0 ≤ p.2 ∧ p.2 ≤ 1)
    ∧ ((∀ x ∈ scores, x = listMin scores) → ∀ p ∈ rerank scores top_k, p.2 = 1/2)
    ∧ (rerank scores top_k).Sorted scoreGE
    ∧ (∀ k, (rerank scores (some k)).length ≤ k) := by
  refine ⟨normalize_scores_bounds scores, normalize_scores_extremes scores hne,
    normalize_scores_all_eq scores, ?_, ?_, ?_, ?_⟩
  · intro p hp
    exact normalize_scores_bounds scores p.2 (mem_rerank_snd_mem scores top_k p hp)
  · intro hall p hp
    exact normalize_scores_all_eq scores hall p.2 (mem_rerank_snd_mem scores top_k p hp)
  · unfold rerank
    rw [if_neg hne]
    have hsorted : (List.insertionSort scoreGE (normalize_scores scores).enum).Sorted scoreGE :=
      List.sorted_insertionSort scoreGE _
    cases top_k with
    | some k => exact hsorted.sublist (List.take_sublist k _)
    | none => exact hsorted
  · intro k
    unfold rerank
    rw [if_neg hne]
    rw [List.length_take]
    exact min_le_left _ _

/-- Witness for C5 at a concrete input. -/
theorem rerank_minmax_normalization_witness :
    ([3, 1, 2] : List ℚ) ≠ [] ∧ (rerank [3, 1, 2] (some 2)).length ≤ 2 :=
  ⟨by decide, (rerank_minmax_normalization [3, 1, 2] (some 2) (by decide)).2.2.2.2.2.2 2⟩

/-- C10: ties in normalized score are broken by the stable descending sort,
so a candidate with a smaller original index precedes any equal-scored
candidate with a larger one; when all raw scores are equal the output order is
exactly the input order truncated to `top_k`. -/
theorem rerank_stable_tie_order (scores : List ℚ) (top_k : Option ℕ)
    (hne : scores ≠ []) :
    (rerank scores top_k).Pairwise (fun a b => a.2 = b.2 → a.1 < b.1)
    ∧ ((∀ x ∈ scores, x = listMin scores) → ∀ k,
        (rerank scores (some k)).map Prod.fst = (List.range scores.length).take k) := by
  constructor
  · unfold rerank
    rw [if_neg hne]
    have hstab := insertionSort_stable (normalize_scores scores).enum
      (enum_pairwise_fst_lt (normalize_scores scores))
    cases top_k with
    | some k => exact hstab.sublist (List.take_sublist k _)
    | none => exact hstab
  · intro hall k
    unfold rerank
    rw [if_neg hne]
    have hsorted : ((normalize_scores scores).enum).Sorted scoreGE := by
      apply List.pairwise_of_forall_mem_list
      intro a ha b hb
      have ha2 : a.2 = 1/2 := normalize_scores_all_eq scores hall a.2
        (List.getElem?_mem (List.mem_enum_iff_getElem?.1 ha))
      have hb2 : b.2 = 1/2 := normalize_scores_all_eq scores hall b.2
        (List.getElem?_mem (List.mem_enum_iff_getElem?.1 hb))
      unfold scoreGE
      rw [ha2, hb2]
    show List.map Prod.fst
        (List.take k (List.insertionSort scoreGE (normalize_scores scores).enum)) =
      List.take k (List.range scores.length)
    rw [hsorted.insertionSort_eq]
    rw [List.map_take, List.enum_map_fst]
    have hlen : (normalize_scores scores).length = scores.length := by
      unfold normalize_scores
      by_cases hc : listMax scores = listMin scores
      · rw [if_pos hc, List.length_map]
      · rw [if_neg hc, List.length_map]
    rw [hlen]

/-- Witness for C10 at a concrete input: all raw scores equal. -/
theorem rerank_stable_tie_order_witness :
    ([2, 2, 2] : List ℚ) ≠ []
    ∧ (rerank [2, 2, 2] (some 2)).map Prod.fst = (List.range 3).take 2 := by
  refine ⟨by decide, ?_⟩
  have h := (rerank_stable_tie_order [2, 2, 2] (some 2) (by decide)).2 (by decide) 2
  simpa using h

/-! ## Vector database: `VectorDatabase` (`database.py`) -/

/-- The chunk metadata stored with each entry.  Per
`DocumentChunk.to_metadata`, the `user_id` key is present only when the
chunk's `user_id` is truthy (not `None` and not the empty string), so it is
an `Option` here (`none` = key absent). -/
structure Metadata where
  document_id : String
  filename : String
  page : ℕ
  user_id : Option String
  deriving Repr, DecidableEq

/-- `DocumentChunk.to_metadata`'s treatment of `user_id`:
`if self.user_id: metadata["user_id"] = self.user_id`. -/
def storedUserId (user_id : Option String) : Option String :=
  match user_id with
  | some u => if u = "" then none else some u
  | none => none

/-- The ChromaDB `where` filters this repository builds: field equality on
`user_id` or `document_id`, and `$and` conjunction. -/
inductive WhereFilter
  | userIdEq (u : String)
  | docIdEq (d : String)
  | and (f g : WhereFilter)
  deriving Repr, DecidableEq

/-- ChromaDB filter semantics on stored metadata: field equality (an absent
key matches nothing) and conjunction. -/
def matchesFilter (m : Metadata) : WhereFilter → Bool
  | .userIdEq u => m.user_id = some u
  | .docIdEq d => m.document_id = d
  | .and f g => matchesFilter m f && matchesFilter m g

/-- One stored entry of the `legal_documents` collection:
`(id, embedding, document text, metadata)`. -/
structure Entry where
  id : String
  embedding : List ℚ
  text : String
  metadata : Metadata
  deriving Repr, DecidableEq

/-- Ascending comparison by distance to the query embedding, under the
index's native distance metric `dist` (cosine distance in this deployment;
the metric is the external index's, so it is a parameter here). -/
def distLE (dist : List ℚ → List ℚ → ℚ) (qe : List ℚ) (a b : Entry) : Prop :=
  dist qe a.embedding ≤ dist qe b.embedding

instance (dist : List ℚ → List ℚ → ℚ) (qe : List ℚ) : DecidableRel (distLE dist qe) :=
  fun a b => inferInstanceAs (Decidable (dist qe a.embedding ≤ dist qe b.embedding))

/-- `VectorDatabase.search`: `collection.query(query_embeddings=[qe],
n_results=top_k, where=...)` — the `where` key is passed only when a filter is
supplied, and the index returns up to `top_k` nearest entries (by `dist`)
among those matching the filter.  Nearest-neighbor selection is modelled as a
distance-sorted take, the index's documented contract. -/
def VectorDatabase.search (db : List Entry) (dist : List ℚ → List ℚ → ℚ)
    (query_embedding : List ℚ) (top_k : ℕ) (whereF : Option WhereFilter) : List Entry :=
  let pool := match whereF with
    | some f => db.filter (fun e => matchesFilter e.metadata f)
    | none => db
  (List.insertionSort (distLE dist query_embedding) pool).take top_k

/-- The `where` filter built by `VectorDatabase.delete_document`: the `$and`
of the document-id and owner conditions when a truthy `user_id` is supplied,
the bare document-id condition on the separate no-owner path
(`if user_id:` — Python truthiness, so `None` and `""` both take the
no-owner path). -/
def deleteFilterOf (document_id : String) (user_id : Option String) : WhereFilter :=
  match user_id with
  | some u => if u = "" then .docIdEq document_id
              else .and (.docIdEq document_id) (.userIdEq u)
  | none => .docIdEq document_id

/-- `VectorDatabase.delete_document(document_id, user_id)`: fetch the ids
matching the filter, return 0 (no deletion) when none match, else delete
those ids and return how many. -/
def VectorDatabase.delete_document (db : List Entry) (document_id : String)
    (user_id : Option String) : List Entry × ℕ :=
  let whereF := deleteFilterOf document_id user_id
  let matchedIds := (db.filter (fun e => matchesFilter e.metadata whereF)).map Entry.id
  if matchedIds = [] then (db, 0)
  else (db.filter (fun e => decide (e.id ∉ matchedIds)), matchedIds.length)

/-! ## Search orchestrator: `SearchEngine.search` (`search.py`) -/

/-- The `SearchResult` model of `models.py`, restricted to the fields the
orchestrator computes. -/
structure SearchResult where
  text : String
  metadata : Metadata
  similarity_score : ℚ
  deriving Repr, DecidableEq

/-- Python `round(x, 4)`: rounding to the nearest multiple of `1/10000`
(`round` rounds half away differently in Python, which no claim touches). -/
def round4 (q : ℚ) : ℚ := (round (q * 10000) : ℚ) / 10000

/-- `search.py` line 53:
`where_filter = {"user_id": user_id} if user_id else None` — Python
truthiness, so both `None` and `""` yield no filter. -/
def whereFilterOf (user_id : Option String) : Option WhereFilter :=
  match user_id with
  | some u => if u = "" then none else some (.userIdEq u)
  | none => none

/-- The reranking-relevant state of a `SearchEngine` instance:
`self.use_reranking` and whether `self.reranker` is a live instance
(`None` when loading the cross-encoder failed at startup). -/
structure SearchEngine where
  use_reranking : Bool
  reranker_available : Bool
  deriving Repr, DecidableEq

/-- The retrieval width chosen by `SearchEngine.search`:
`retrieval_k = top_k * 3 if should_rerank and self.reranker else top_k`,
where `should_rerank = use_reranking if use_reranking is not None else
self.use_reranking`. -/
def SearchEngine.retrievalK (eng : SearchEngine) (top_k : ℕ)
    (use_reranking : Option Bool) : ℕ :=
  if use_reranking.getD eng.use_reranking && eng.reranker_available
  then top_k * 3 else top_k

/-- Totalizes Python's `search_results[idx]` list indexing; never reached
when the reranking oracle returns one score per candidate. -/
def defaultResult : SearchResult :=
  { text := "", metadata := { document_id := "", filename := "", page := 0, user_id := none },
    similarity_score := 0 }

/-- `SearchEngine.search(query, top_k, use_reranking, user_id)`.
Oracles: `embed` (embedding model), `dist` (the index's distance metric,
with `similarity = 1 - distance`), `rerank_scores` (the cross-encoder's raw
scores for a query and candidate texts, one per candidate). -/
def SearchEngine.search (eng : SearchEngine) (db : List Entry)
    (dist : List ℚ → List ℚ → ℚ) (embed : String → List ℚ)
    (rerank_scores : String → List String → List ℚ)
    (query : String) (top_k : ℕ) (use_reranking : Option Bool)
    (user_id : Option String) : List SearchResult :=
  let should_rerank := use_reranking.getD eng.use_reranking
  let retrieval_k := eng.retrievalK top_k use_reranking
  let query_embedding := embed query
  let where_filter := whereFilterOf user_id
  let results := VectorDatabase.search db dist query_embedding retrieval_k where_filter
  let search_results := results.map (fun e =>
    ({ text := e.text, metadata := e.metadata,
       similarity_score := round4 (1 - dist query_embedding e.embedding) } : SearchResult))
  if should_rerank && eng.reranker_available && decide (0 < search_results.length) then
    let texts := search_results.map SearchResult.text
    let reranked := rerank (rerank_scores query texts) (some top_k)
    reranked.map (fun p =>
      let r := search_results.getD p.1 defaultResult
      { r with similarity_score := round4 p.2 })
  else
    search_results.take top_k

/-! ### Search/database membership lemmas -/

theorem normalize_scores_length (scores : List ℚ) :
    (normalize_scores scores).length = scores.length := by
  unfold normalize_scores
  by_cases hc : listMax scores = listMin scores
  · rw [if_pos hc, List.length_map]
  · rw [if_neg hc, List.length_map]

theorem mem_rerank_fst_lt (scores : List ℚ) (top_k : Option ℕ) (p : ℕ × ℚ)
    (hp : p ∈ rerank scores top_k) : p.1 < scores.length := by
  unfold rerank at hp
  by_cases hne : scores = []
  · rw [if_pos hne] at hp
    exact absurd hp (List.not_mem_nil p)
  · rw [if_neg hne] at hp
    have hp' : p ∈ List.insertionSort scoreGE (normalize_scores scores).enum := by
      cases top_k with
      | some k => exact (List.take_sublist k _).mem hp
      | none => exact hp
    have hp'' : p ∈ (normalize_scores scores).enum := (List.mem_insertionSort scoreGE).1 hp'
    rw [List.mem_enum_iff_getElem?] at hp''
    obtain ⟨h, _⟩ := List.getElem?_eq_some.1 hp''
    rw [normalize_scores_length] at h
    exact h

theorem mem_vdb_search_some (db : List Entry) (dist : List ℚ → List ℚ → ℚ)
    (qe : List ℚ) (k : ℕ) (f : WhereFilter) (e : Entry)
    (he : e ∈ VectorDatabase.search db dist qe k (some f)) :
    e ∈ db ∧ matchesFilter e.metadata f = true := by
  unfold VectorDatabase.search at he
  have he' : e ∈ List.insertionSort (distLE dist qe)
      (db.filter (fun x => matchesFilter x.metadata f)) :=
    (List.take_sublist k _).mem he
  have he'' : e ∈ db.filter (fun x => matchesFilter x.metadata f) :=
    (List.mem_insertionSort (distLE dist qe)).1 he'
  exact List.mem_filter.1 he''

theorem getD_mem_of_lt {α : Type} {l : List α} {i : ℕ} (d : α) (h : i < l.length) :
    l.getD i d ∈ l := by
  rw [List.getD_eq_getElem?_getD, List.getElem?_eq_getElem h, Option.getD_some]
  exact List.getElem_mem h

/-- Every result of `SearchEngine.search` reproduces the metadata of some
entry returned by the underlying filtered vector-index query (both with and
without reranking), provided the cross-encoder returns one score per
candidate. -/
theorem search_mem_exists (eng : SearchEngine) (db : List Entry)
    (dist : List ℚ → List ℚ → ℚ) (embed : String → List ℚ)
    (rerank_scores : String → List String → List ℚ)
    (query : String) (top_k : ℕ) (ur : Option Bool) (uid : Option String)
    (hlen : ∀ q ts, (rerank_scores q ts).length = ts.length) :
    ∀ r ∈ SearchEngine.search eng db dist embed rerank_scores query top_k ur uid,
      ∃ e ∈ VectorDatabase.search db dist (embed query) (eng.retrievalK top_k ur)
          (whereFilterOf uid), r.metadata = e.metadata := by
  intro r hr
  simp only [SearchEngine.search] at hr
  split at hr
  · rw [List.mem_map] at hr
    obtain ⟨p, hp, rfl⟩ := hr
    have hfst := mem_rerank_fst_lt _ _ p hp
    rw [hlen, List.length_map, List.length_map] at hfst
    have hlt : p.1 < (List.map (fun e =>
        ({ text := e.text, metadata := e.metadata,
           similarity_score := round4 (1 - dist (embed query) e.embedding) }
          : SearchResult))
        (VectorDatabase.search db dist (embed query) (eng.retrievalK top_k ur)
          (whereFilterOf uid))).length := by
      rw [List.length_map]
      exact hfst
    have hmem := getD_mem_of_lt defaultResult hlt
    rw [List.mem_map] at hmem
    obtain ⟨e, he, heq⟩ := hmem
    exact ⟨e, he, by rw [← heq]⟩
  · have hr2 := (List.take_sublist _ _).mem hr
    rw [List.mem_map] at hr2
    obtain ⟨e, he, rfl⟩ := hr2
    exact ⟨e, he, rfl⟩

/-! ## Claim theorems for search and the vector database -/

/-- C1: owner isolation — a search scoped to owner `A` (a real owner
identifier is a non-empty string) returns only results whose stored owner
identifier is `A`, for every query, every `top_k`, every database content and
every reranking setting; in particular no chunk of a distinct owner `B`
appears. -/
theorem owner_isolation (eng : SearchEngine) (db : List Entry)
    (dist : List ℚ → List ℚ → ℚ) (embed : String → List ℚ)
    (rerank_scores : String → List String → List ℚ)
    (query : String) (top_k : ℕ) (ur : Option Bool) (A : String) (hA : A ≠ "")
    (hlen : ∀ q ts, (rerank_scores q ts).length = ts.length) :
    ∀ r ∈ SearchEngine.search eng db dist embed rerank_scores query top_k ur (some A),
      r.metadata.user_id = some A := by
  intro r hr
  obtain ⟨e, he, hmeta⟩ :=
    search_mem_exists eng db dist embed rerank_scores query top_k ur (some A) hlen r hr
  have hwf : whereFilterOf (some A) = some (.userIdEq A) := by
    simp [whereFilterOf, hA]
  rw [hwf] at he
  have hmatch := (mem_vdb_search_some db dist (embed query)
    (eng.retrievalK top_k ur) (.userIdEq A) e he).2
  simp only [matchesFilter, decide_eq_true_eq] at hmatch
  rw [hmeta]
  exact hmatch

/-- Witness for C1 at a concrete input: a two-owner database. -/
theorem owner_isolation_witness :
    ("A" : String) ≠ ""
    ∧ ∀ r ∈ SearchEngine.search ⟨true, true⟩
        [⟨"id1", [1], "ta", ⟨"d1", "f1", 1, some "A"⟩⟩,
         ⟨"id2", [2], "tb", ⟨"d2", "f2", 1, some "B"⟩⟩]
        (fun _ _ => 0) (fun _ => [1]) (fun _ ts => ts.map (fun _ => 0))
        "q" 5 none (some "A"),
      r.metadata.user_id = some "A" := by
  refine ⟨by decide, ?_⟩
  exact owner_isolation ⟨true, true⟩
    [⟨"id1", [1], "ta", ⟨"d1", "f1", 1, some "A"⟩⟩,
     ⟨"id2", [2], "tb", ⟨"d2", "f2", 1, some "B"⟩⟩]
    (fun _ _ => 0) (fun _ => [1]) (fun _ ts => ts.map (fun _ => 0))
    "q" 5 none "A" (by decide) (fun q ts => by rw [List.length_map])

/-- C2: the retrieval width requested from the vector index is `top_k * 3`
exactly when reranking is in effect and a reranker instance is available,
and `top_k` otherwise; with `top_k = 5` and reranking available and in
effect, 15 candidates are requested. -/
theorem oversampling_retrieval_width (eng : SearchEngine) (top_k : ℕ)
    (ur : Option Bool) :
    (ur.getD eng.use_reranking = true → eng.reranker_available = true →
      eng.retrievalK top_k ur = top_k * 3)
    ∧ ((ur.getD eng.use_reranking = false ∨ eng.reranker_available = false) →
      eng.retrievalK top_k ur = top_k)
    ∧ (ur.getD eng.use_reranking = true → eng.reranker_available = true →
      eng.retrievalK 5 ur = 15) := by
  unfold SearchEngine.retrievalK
  refine ⟨?_, ?_, ?_⟩
  · intro h1 h2
    rw [h1, h2]
    rfl
  · intro h
    rcases h with h | h <;> rw [h] <;> simp
  · intro h1 h2
    rw [h1, h2]
    rfl

/-- Witness for C2 at a concrete input. -/
theorem oversampling_retrieval_width_witness :
    ((none : Option Bool).getD true = true ∧ (true : Bool) = true)
    ∧ SearchEngine.retrievalK ⟨true, true⟩ 5 none = 15 :=
  ⟨⟨rfl, rfl⟩, (oversampling_retrieval_width ⟨true, true⟩ 5 none).2.2 rfl rfl⟩

/-- C9: with `user_id = None` or `user_id = ""` the vector-index query is
issued with no owner filter at all (the candidate pool is the whole
database); the owner filter is applied exactly when `user_id` is a non-empty
string. -/
theorem no_owner_filter_when_user_id_falsy :
    whereFilterOf none = none
    ∧ whereFilterOf (some "") = none
    ∧ (∀ u : String, u ≠ "" → whereFilterOf (some u) = some (.userIdEq u))
    ∧ (∀ (db : List Entry) (dist : List ℚ → List ℚ → ℚ) (qe : List ℚ) (k : ℕ),
        VectorDatabase.search db dist qe k none =
          (List.insertionSort (distLE dist qe) db).take k)
    ∧ (∀ (eng : SearchEngine) (db : List Entry) (dist : List ℚ → List ℚ → ℚ)
        (embed : String → List ℚ) (rs : String → List String → List ℚ)
        (q : String) (k : ℕ) (ur : Option Bool),
        SearchEngine.search eng db dist embed rs q k ur none =
          SearchEngine.search eng db dist embed rs q k ur (some "")) := by
  refine ⟨rfl, by simp [whereFilterOf], ?_, fun db dist qe k => rfl, ?_⟩
  · intro u hu
    simp [whereFilterOf, hu]
  · intro eng db dist embed rs q k ur
    have h : whereFilterOf (some "") = whereFilterOf none := by
      simp [whereFilterOf]
    unfold SearchEngine.search
    rw [h]

/-- Witness for C9 at a concrete input. -/
theorem no_owner_filter_when_user_id_falsy_witness :
    ("u1" : String) ≠ "" ∧ whereFilterOf (some "u1") = some (.userIdEq "u1") :=
  ⟨by decide, no_owner_filter_when_user_id_falsy.2.2.1 "u1" (by decide)⟩

/-- C6: deleting by (document id, owner) uses the conjunction of the
document-id and owner conditions (the owner check is only omitted on the
separate no-owner path), returns a chunks-deleted count equal to the number
of chunks written for that document, and a subsequent owner-scoped query
returns no chunk of that document. -/
theorem delete_round_trip (prior newChunks : List Entry) (d A : String)
    (hA : A ≠ "")
    (hnew : ∀ e ∈ newChunks, e.metadata.document_id = d ∧ e.metadata.user_id = some A)
    (hprior : ∀ e ∈ prior, e.metadata.document_id ≠ d)
    (hids : ∀ e ∈ prior, e.id ∉ newChunks.map Entry.id) :
    deleteFilterOf d (some A) = WhereFilter.and (.docIdEq d) (.userIdEq A)
    ∧ (VectorDatabase.delete_document (prior ++ newChunks) d (some A)).2 = newChunks.length
    ∧ (VectorDatabase.delete_document (prior ++ newChunks) d (some A)).1 = prior
    ∧ (∀ (dist : List ℚ → List ℚ → ℚ) (qe : List ℚ) (k : ℕ) (r : Entry),
        r ∈ VectorDatabase.search
          (VectorDatabase.delete_document (prior ++ newChunks) d (some A)).1
          dist qe k (some (.userIdEq A)) →
        r.metadata.document_id ≠ d) := by
  have hfilter : deleteFilterOf d (some A) = WhereFilter.and (.docIdEq d) (.userIdEq A) := by
    simp [deleteFilterOf, hA]
  have hmatch : (prior ++ newChunks).filter
      (fun e => matchesFilter e.metadata (deleteFilterOf d (some A))) = newChunks := by
    rw [hfilter, List.filter_append]
    have h1 : prior.filter
        (fun e => matchesFilter e.metadata (.and (.docIdEq d) (.userIdEq A))) = [] := by
      rw [List.filter_eq_nil_iff]
      intro e he
      simp only [matchesFilter, Bool.and_eq_true, decide_eq_true_eq, not_and]
      intro hd
      exact absurd hd (hprior e he)
    have h2 : newChunks.filter
        (fun e => matchesFilter e.metadata (.and (.docIdEq d) (.userIdEq A))) = newChunks := by
      rw [List.filter_eq_self]
      intro e he
      simp only [matchesFilter, Bool.and_eq_true, decide_eq_true_eq]
      exact ⟨(hnew e he).1, (hnew e he).2⟩
    rw [h1, h2, List.nil_append]
  have hdel : VectorDatabase.delete_document (prior ++ newChunks) d (some A) =
      (if (newChunks.map Entry.id) = [] then (prior ++ newChunks, 0)
       else ((prior ++ newChunks).filter
          (fun e => decide (e.id ∉ newChunks.map Entry.id)),
         (newChunks.map Entry.id).length)) := by
    simp only [VectorDatabase.delete_document]
    rw [hmatch]
  by_cases hc : newChunks = []
  · subst hc
    refine ⟨hfilter, ?_, ?_, ?_⟩
    · rw [hdel]
      rfl
    · rw [hdel]
      simp
    · intro dist qe k r hr
      rw [hdel] at hr
      simp only [List.map_nil, if_pos rfl, List.append_nil] at hr
      exact hprior r (mem_vdb_search_some prior dist qe k _ r hr).1
  · have hne : newChunks.map Entry.id ≠ [] := by
      rw [Ne, List.map_eq_nil_iff]
      exact hc
    have hkeep : (prior ++ newChunks).filter
        (fun e => decide (e.id ∉ newChunks.map Entry.id)) = prior := by
      rw [List.filter_append]
      have h1 : prior.filter (fun e => decide (e.id ∉ newChunks.map Entry.id)) = prior := by
        rw [List.filter_eq_self]
        intro e he
        simp only [decide_eq_true_eq]
        exact hids e he
      have h2 : newChunks.filter (fun e => decide (e.id ∉ newChunks.map Entry.id)) = [] := by
        rw [List.filter_eq_nil_iff]
        intro e he
        simp only [decide_eq_true_eq, not_not]
        exact List.mem_map_of_mem Entry.id he
      rw [h1, h2, List.append_nil]
    refine ⟨hfilter, ?_, ?_, ?_⟩
    · rw [hdel, if_neg hne]
      simp
    · rw [hdel, if_neg hne]
      exact hkeep
    · intro dist qe k r hr
      rw [hdel, if_neg hne] at hr
      simp only [hkeep] at hr
      exact hprior r (mem_vdb_search_some prior dist qe k _ r hr).1

/-- Witness for C6 at a concrete input: one prior entry of another document,
two freshly written chunks. -/
theorem delete_round_trip_witness :
    (("A" : String) ≠ "")
    ∧ (VectorDatabase.delete_document
        [⟨"p1", [1], "tp", ⟨"other", "f0", 1, some "A"⟩⟩,
         ⟨"n1", [2], "t1", ⟨"doc9", "f9", 1, some "A"⟩⟩,
         ⟨"n2", [3], "t2", ⟨"doc9", "f9", 1, some "A"⟩⟩] "doc9" (some "A")).2 = 2 := by
  refine ⟨by decide, ?_⟩
  have h := delete_round_trip
    [⟨"p1", [1], "tp", ⟨"other", "f0", 1, some "A"⟩⟩]
    [⟨"n1", [2], "t1", ⟨"doc9", "f9", 1, some "A"⟩⟩,
     ⟨"n2", [3], "t2", ⟨"doc9", "f9", 1, some "A"⟩⟩]
    "doc9" "A" (by decide) (by decide) (by decide) (by decide)
  exact h.2.1

/-! ## Answer synthesizer: `AnswerSynthesizer.synthesize` (`synthesis.py`) -/

/-- The fixed message returned when `GROQ_API_KEY` is absent
(`self.client is None`). -/
def no_api_key_msg : String :=
  "Error: Groq API key not configured. Please set GROQ_API_KEY environment variable."

/-- The fixed message returned for an empty result list. -/
def no_results_msg : String := "No relevant information found to answer your question."

/-- The numbered source blocks built from the first 5 results. -/
def build_context (results : List SearchResult) : String :=
  String.intercalate "\n" ((results.take 5).enum.map (fun p =>
    "[Source " ++ toString (p.1 + 1) ++ ": " ++ p.2.metadata.filename
      ++ ", Page " ++ toString p.2.metadata.page ++ "]\n" ++ p.2.text ++ "\n"))

/-- The user prompt assembled by `synthesize` (the f-string of
`synthesis.py`, with the interpolations made explicit). -/
def build_prompt (query : String) (results : List SearchResult) : String :=
  "You are a legal document assistant. Based on the following excerpts from legal documents, provide a clear and concise answer to the user's question.\n\nContext from legal documents:\n"
    ++ build_context results
    ++ "\n\nUser's question: " ++ query
    ++ "\n\nInstructions:\n- Provide a direct answer to the question based ONLY on the information in the context\n- Cite sources using [Source X] notation when referencing specific information\n- If the context doesn't contain enough information to fully answer, acknowledge this\n- Keep your answer concise but complete\n- Use professional legal language where appropriate\n\nAnswer:"

/-- `AnswerSynthesizer.synthesize(query, search_results)`.
`client_configured` models `self.client is not None`; `complete` is the
completion oracle (`.error e` models the API call raising an exception whose
string form is `e`).  Mirrors the source's order of checks: the client check
comes first, then the empty-results check, then the guarded oracle call. -/
def synthesize (client_configured : Bool) (complete : String → Except String String)
    (query : String) (search_results : List SearchResult) : String :=
  if !client_configured then no_api_key_msg
  else if search_results = [] then no_results_msg
  else
    match complete (build_prompt query search_results) with
    | .ok answer => answer
    | .error e => "Error generating answer: " ++ e

/-- C7 as written is falsified here: with an unconfigured client and an empty
results list, `synthesize` returns the API-key error message, not the
"no information found" message, because the source checks `self.client`
before checking `search_results`. -/
theorem synthesize_empty_results_counterexample :
    synthesize false (fun _ => Except.ok "anything") "q" [] = no_api_key_msg
    ∧ no_api_key_msg ≠ no_results_msg :=
  ⟨rfl, by decide⟩

/-- C7 (amended): `synthesize` is total (never raises); with an unconfigured
client it returns the fixed API-key error string regardless of the oracle and
the results; with a configured client and empty results it returns the fixed
"no information found" message without consulting the oracle (the result is
the same for every oracle); and when the oracle fails it returns the fixed
prefix "Error generating answer: " followed by the failure text instead of
propagating the failure. -/
theorem synthesize_failure_semantics (complete : String → Except String String)
    (query : String) (results : List SearchResult) :
    (synthesize false complete query results = no_api_key_msg)
    ∧ (results = [] →
        ∀ complete2 : String → Except String String,
          synthesize true complete2 query results = no_results_msg)
    ∧ (results ≠ [] → ∀ e : String,
        complete (build_prompt query results) = Except.error e →
        synthesize true complete query results = "Error generating answer: " ++ e)
    ∧ (results ≠ [] → ∀ a : String,
        complete (build_prompt query results) = Except.ok a →
        synthesize true complete query results = a) := by
  refine ⟨rfl, ?_, ?_, ?_⟩
  · intro hre complete2
    unfold synthesize
    rw [if_neg (by simp), if_pos hre]
  · intro hne e he
    unfold synthesize
    rw [if_neg (by simp), if_neg hne, he]
  · intro hne a ha
    unfold synthesize
    rw [if_neg (by simp), if_neg hne, ha]

/-- Witness for the amended C7 at concrete inputs. -/
theorem synthesize_failure_semantics_witness :
    (([] : List SearchResult) = []
      ∧ synthesize true (fun _ => Except.ok "ans") "q" [] = no_results_msg)
    ∧ (([defaultResult] : List SearchResult) ≠ []
      ∧ synthesize true (fun _ => Except.error "boom") "q" [defaultResult] =
          "Error generating answer: " ++ "boom") :=
  ⟨⟨rfl, (synthesize_failure_semantics (fun _ => Except.ok "ans") "q" []).2.1 rfl _⟩,
   ⟨by decide,
    (synthesize_failure_semantics (fun _ => Except.error "boom") "q" [defaultResult]).2.2.1
      (by decide) "boom" rfl⟩⟩

/-! ## Text extractor: `DocumentProcessor._extract_text_from_pdf` -/

/-- A page of a page-addressable document; `directText` is what
`page.get_text()` returns (the embedded text layer, possibly empty). -/
structure PdfPage where
  directText : String
  deriving Repr, DecidableEq

/-- Python's `not text.strip()`: true iff the text is empty after
whitespace trim, i.e. every character is whitespace.  (Modelled on the
character list so that it evaluates; `String.trim` itself is not
kernel-reducible.) -/
def isBlank (s : String) : Bool := s.data.all Char.isWhitespace

/-- Per-page extraction with OCR fallback, for one page.
`prep` models `page.get_pixmap(dpi=300)` followed by
`preprocess_image_for_ocr` (covered by the outer `try`); `psm3` and `psm1`
model `pytesseract.image_to_string` with `--psm 3` and `--psm 1` (the inner
`try`/`except`).  A `psm1` failure propagates to the outer handler, which
degrades the page to empty text; the Bool is true (the page counts toward
`ocr_pages`) exactly when an OCR call succeeded. -/
def extract_page {Img : Type} (prep : PdfPage → Except String Img)
    (psm3 psm1 : Img → Except String String) (p : PdfPage) : String × Bool :=
  if isBlank p.directText then
    match prep p with
    | .error _ => ("", false)
    | .ok img =>
      match psm3 img with
      | .ok t => (t, true)
      | .error _ =>
        match psm1 img with
        | .ok t => (t, true)
        | .error _ => ("", false)
  else (p.directText, false)

/-- `DocumentProcessor._extract_text_from_pdf` over an opened document's
pages: returns (`text_by_page` as 1-indexed (page, text) pairs, `ocr_used`,
`ocr_pages`, `total_pages`).  The source's per-page loop body is
`extract_page`; the loop is modelled as a map (iterations are independent)
with `ocr_pages` the count of pages whose OCR succeeded, and
`ocr_used = ocr_pages > 0`. -/
def extract_text_from_pdf {Img : Type} (prep : PdfPage → Except String Img)
    (psm3 psm1 : Img → Except String String) (pages : List PdfPage) :
    List (ℕ × String) × Bool × ℕ × ℕ :=
  let per := pages.map (extract_page prep psm3 psm1)
  let text_by_page := per.enum.map (fun q => (q.1 + 1, q.2.1))
  let ocr_pages := (per.filter (fun r => r.2)).length
  (text_by_page, decide (0 < ocr_pages), ocr_pages, pages.length)

/-- C8: per-page OCR fallback — when direct extraction of a page is empty
after trimming, OCR runs with segmentation mode 3 first; if that call raises,
mode 1; a successful fallback yields the mode-1 text and counts the page as
an OCR page (contributing exactly 1 to `ocr_pages`); if OCR fails entirely
the page degrades to empty text and is not counted; every page is processed
independently of the others, and `ocr_used` is true exactly when
`ocr_pages > 0`. -/
theorem ocr_fallback_per_page {Img : Type} (prep : PdfPage → Except String Img)
    (psm3 psm1 : Img → Except String String) (p : PdfPage) (img : Img)
    (t e3 e1 ep : String) (pages : List PdfPage) :
    (isBlank p.directText = true → prep p = Except.ok img →
      psm3 img = Except.ok t → extract_page prep psm3 psm1 p = (t, true))
    ∧ (isBlank p.directText = true → prep p = Except.ok img →
      psm3 img = Except.error e3 → psm1 img = Except.ok t →
      extract_page prep psm3 psm1 p = (t, true))
    ∧ (isBlank p.directText = true → prep p = Except.ok img →
      psm3 img = Except.error e3 → psm1 img = Except.error e1 →
      extract_page prep psm3 psm1 p = ("", false))
    ∧ (isBlank p.directText = true → prep p = Except.error ep →
      extract_page prep psm3 psm1 p = ("", false))
    ∧ (∀ i : ℕ, (extract_text_from_pdf prep psm3 psm1 pages).1[i]? =
        (pages[i]?).map (fun pg => (i + 1, (extract_page prep psm3 psm1 pg).1)))
    ∧ ((extract_page prep psm3 psm1 p).2 = true →
        (extract_text_from_pdf prep psm3 psm1 (pages ++ [p])).2.2.1 =
          (extract_text_from_pdf prep psm3 psm1 pages).2.2.1 + 1)
    ∧ ((extract_page prep psm3 psm1 p).2 = false →
        (extract_text_from_pdf prep psm3 psm1 (pages ++ [p])).2.2.1 =
          (extract_text_from_pdf prep psm3 psm1 pages).2.2.1)
    ∧ ((extract_text_from_pdf prep psm3 psm1 pages).2.1 = true ↔
        0 < (extract_text_from_pdf prep psm3 psm1 pages).2.2.1)
    ∧ (extract_text_from_pdf prep psm3 psm1 pages).2.2.2 = pages.length := by
  refine ⟨?_, ?_, ?_, ?_, ?_, ?_, ?_, ?_, rfl⟩
  · intro ht hprep h3
    simp [extract_page, ht, hprep, h3]
  · intro ht hprep h3 h1
    simp [extract_page, ht, hprep, h3, h1]
  · intro ht hprep h3 h1
    simp [extract_page, ht, hprep, h3, h1]
  · intro ht hprep
    simp [extract_page, ht, hprep]
  · intro i
    show ((pages.map (extract_page prep psm3 psm1)).enum.map
      (fun q => (q.1 + 1, q.2.1)))[i]? = _
    rw [List.getElem?_map, List.getElem?_enum, List.getElem?_map]
    cases hpg : pages[i]? with
    | none => rfl
    | some pg => rfl
  · intro hflag
    simp [extract_text_from_pdf, List.filter_append, hflag]
  · intro hflag
    simp [extract_text_from_pdf, List.filter_append, hflag]
  · simp [extract_text_from_pdf]

/-- Witness for C8 at a concrete input: one page without a text layer whose
mode-3 OCR raises and whose mode-1 OCR succeeds. -/
theorem ocr_fallback_per_page_witness :
    (isBlank "" = true
      ∧ extract_page (fun _ => Except.ok ()) (fun _ => Except.error "tess3")
          (fun _ => Except.ok "recovered text") ⟨""⟩ = ("recovered text", true))
    ∧ (extract_text_from_pdf (fun _ => Except.ok ()) (fun _ => Except.error "tess3")
        (fun _ => Except.ok "recovered text") [⟨""⟩]).2.2.1 = 1 := by
  refine ⟨⟨by decide, ?_⟩, by decide⟩
  exact (ocr_fallback_per_page (fun _ => Except.ok ()) (fun _ => Except.error "tess3")
    (fun _ => Except.ok "recovered text") ⟨""⟩ () "recovered text" "tess3" "x" "x"
    []).2.1 (by decide) rfl rfl rfl
